import Mathlib

/-!
Verification development for a two-contract NFT system: an MPC-721 style
token ledger contract (`Nft`) and a user/wallet directory contract
(`UserDir`).  Both contracts are shallowly embedded: contract state is an
explicit record, every entry point is a pure function from caller identity,
state and arguments to `Except` of error or a new state (plus outbound
event groups), mirroring the source's panic-on-precondition style where a
panic aborts the whole invocation.

Addresses are modelled as an opaque comparable identity (`Nat`);
`SortedVecMap` is modelled as an association list wrapped in `AMap` and
`SortedVec` as a duplicate-free list with set insert/remove.  Ordering of
entries is never observed by the contract logic, so the sortedness of the
backing vector is irrelevant to all properties proved here.
-/

/-- Opaque, comparable, totally ordered participant identity. -/
abbrev Address := Nat

/-! ### Association-list maps (model of `SortedVecMap`) -/

/-- Lookup in an association list. -/
def getL [DecidableEq α] : List (α × β) → α → Option β
  | [], _ => none
  | (k', v) :: rest, k => if k = k' then some v else getL rest k

/-- Insert (replace-if-present) in an association list. -/
def insL [DecidableEq α] : List (α × β) → α → β → List (α × β)
  | [], k, v => [(k, v)]
  | (k', v') :: rest, k, v =>
    if k = k' then (k, v) :: rest else (k', v') :: insL rest k v

/-- Remove every binding of a key from an association list. -/
def remL [DecidableEq α] : List (α × β) → α → List (α × β)
  | [], _ => []
  | (k', v') :: rest, k =>
    if k' = k then remL rest k else (k', v') :: remL rest k

/-- Model of `pbc_contract_common::sorted_vec_map::SortedVecMap`. -/
structure AMap (α β : Type) where
  entries : List (α × β)
deriving DecidableEq

/-- Model of `SortedVecMap::new`. -/
def AMap.new : AMap α β := ⟨[]⟩

/-- Model of `SortedVecMap::get`. -/
def AMap.get [DecidableEq α] (m : AMap α β) (k : α) : Option β :=
  getL m.entries k

/-- Model of `SortedVecMap::insert`. -/
def AMap.insert [DecidableEq α] (m : AMap α β) (k : α) (v : β) :
    AMap α β :=
  ⟨insL m.entries k v⟩

/-- Model of `SortedVecMap::remove`. -/
def AMap.remove [DecidableEq α] (m : AMap α β) (k : α) : AMap α β :=
  ⟨remL m.entries k⟩

/-! ### Set operations on lists (model of `SortedVec`) -/

/-- Model of `SortedVec::insert` (set semantics: no duplicate entries). -/
def SVinsert [DecidableEq α] (x : α) (l : List α) : List α :=
  if x ∈ l then l else x :: l

/-- Model of `SortedVec::remove`. -/
def SVremove [DecidableEq α] (x : α) : List α → List α
  | [] => []
  | y :: rest => if y = x then SVremove x rest else y :: SVremove x rest

/-! ### Shared contract vocabulary -/

/-- A permission from an NFT owner to an operator (source: `OperatorApproval`
in both crates). -/
structure OperatorApproval where
  owner : Address
  operator : Address
deriving DecidableEq

/-- One positional argument of an outbound interaction. -/
inductive Arg where
  | addr (a : Address)
  | nat (n : Nat)
  | str (s : String)
deriving DecidableEq

/-- An outbound call record: target contract, shortname tag, ordered
arguments (source: `EventGroup::builder().call(..).argument(..)...`). -/
structure Interaction where
  target : Address
  shortname : Nat
  args : List Arg
deriving DecidableEq

/-- An event group is the list of interactions built by one builder. -/
abbrev EventGroup := List Interaction

/-- Error taxonomy of the panics in `src/nft/src/lib.rs`. -/
inductive NftErr where
  | NotFound
  | Unauthorized
  | OwnershipMismatch
  | InvalidSelfReference
  | ExternalCallFailed
deriving DecidableEq

namespace Nft

/-- Metadata bundle attached to each NFT (source: `UriMetadata`). -/
structure UriMetadata where
  status : String
  mpg_time : String
  exp_time : String
deriving DecidableEq

/-- State of the NFT contract (source: `NFTContractState` in
`src/nft/src/lib.rs`). -/
structure NFTContractState where
  name : String
  symbol : String
  user_contract_address : Address
  owners : AMap Nat Address
  token_approvals : AMap Nat Address
  operator_approvals : List OperatorApproval
  uri_template : String
  token_uri_details : AMap Nat UriMetadata
  contract_owner : Address
  product_id : String
  total_count : Nat
deriving DecidableEq

/-- Shortname of the user contract's `transfer_product` action (source:
`fn transfer_product() -> Shortname`). -/
def transfer_product : Nat := 0x02

/-- Shortname of the user contract's `mint_product` action (source:
`fn mint_product() -> Shortname`). -/
def mint_product : Nat := 0x03

/-- Source: `NFTContractState::owner_of`; the panic on a nonexistent token
is modelled as the `NotFound` error. -/
def NFTContractState.owner_of (s : NFTContractState) (token_id : Nat) :
    Except NftErr Address :=
  match s.owners.get token_id with
  | none => .error .NotFound
  | some owner => .ok owner

/-- Source: `NFTContractState::get_approved`. -/
def NFTContractState.get_approved (s : NFTContractState) (token_id : Nat) :
    Option Address :=
  s.token_approvals.get token_id

/-- Source: `NFTContractState::is_approved_for_all`. -/
def NFTContractState.is_approved_for_all (s : NFTContractState)
    (owner operator : Address) : Prop :=
  OperatorApproval.mk owner operator ∈ s.operator_approvals

instance (s : NFTContractState) (owner operator : Address) :
    Decidable (s.is_approved_for_all owner operator) :=
  inferInstanceAs (Decidable (_ ∈ _))

/-- Source: `NFTContractState::_approve`. -/
def NFTContractState._approve (s : NFTContractState) (approved : Option Address)
    (token_id : Nat) : NFTContractState :=
  match approved with
  | some appr => { s with token_approvals := s.token_approvals.insert token_id appr }
  | none => { s with token_approvals := s.token_approvals.remove token_id }

/-- Source: `NFTContractState::_transfer`; the two panics (nonexistent token
via `owner_of`, wrong `from`) are modelled as errors. -/
def NFTContractState._transfer (s : NFTContractState) (frm to' : Address)
    (token_id : Nat) : Except NftErr NFTContractState :=
  match s.owners.get token_id with
  | none => .error .NotFound
  | some owner =>
    if owner ≠ frm then .error .OwnershipMismatch
    else
      .ok { s._approve none token_id with
            owners := (s._approve none token_id).owners.insert token_id to' }

/-- Source: `initialize` in `src/nft/src/lib.rs`; `sender` is `ctx.sender`. -/
def init (sender : Address) (name symbol product_id : String)
    (user_contract_address : Address) (uri_template : String) :
    NFTContractState :=
  { name := name
    symbol := symbol
    product_id := product_id
    user_contract_address := user_contract_address
    owners := AMap.new
    token_approvals := AMap.new
    operator_approvals := []
    uri_template := uri_template
    token_uri_details := AMap.new
    contract_owner := sender
    total_count := 0 }

/-- Source: `approve` (action 0x05); `sender` is `ctx.sender`. -/
def approve (sender : Address) (s : NFTContractState)
    (approved : Option Address) (token_id : Nat) :
    Except NftErr NFTContractState :=
  match s.owners.get token_id with
  | none => .error .NotFound
  | some owner =>
    if sender ≠ owner ∧ ¬ s.is_approved_for_all owner sender then
      .error .Unauthorized
    else
      .ok (s._approve approved token_id)

/-- Source: `set_approval_for_all` (action 0x07); `sender` is `ctx.sender`. -/
def set_approval_for_all (sender : Address) (s : NFTContractState)
    (operator : Address) (approved : Bool) :
    Except NftErr NFTContractState :=
  if operator = sender then .error .InvalidSelfReference
  else
    let operator_approval : OperatorApproval :=
      { owner := sender, operator := operator }
    if approved then
      .ok { s with operator_approvals := SVinsert operator_approval s.operator_approvals }
    else
      .ok { s with operator_approvals := SVremove operator_approval s.operator_approvals }

/-- Source: `transfer_from` (action 0x03); `sender` is `ctx.sender` and
`contract_address` is `ctx.contract_address`. -/
def transfer_from (sender contract_address : Address) (s : NFTContractState)
    (frm to' : Address) (token_id : Nat) :
    Except NftErr (NFTContractState × List EventGroup) :=
  if s.contract_owner ≠ sender then .error .Unauthorized
  else
    match s._transfer frm to' token_id with
    | .error e => .error e
    | .ok s1 =>
      .ok (s1,
        [[{ target := s1.user_contract_address
            shortname := transfer_product
            args := [.addr frm, .addr to', .addr contract_address,
                     .nat token_id, .str s1.product_id] }]])

/-- One iteration of the `batch_mint` loop body: increment `total_count`,
bind owner and a fresh copy of the metadata at the new id. -/
def mintOne (to' : Address) (meta : UriMetadata) (s : NFTContractState) :
    NFTContractState :=
  { s with
    total_count := s.total_count + 1
    owners := s.owners.insert (s.total_count + 1) to'
    token_uri_details := s.token_uri_details.insert (s.total_count + 1) meta }

/-- The `for i in 0..count` loop of `batch_mint`, by recursion on the number
of remaining iterations. -/
def batchMintLoop (to' : Address) (meta : UriMetadata) :
    Nat → NFTContractState → NFTContractState
  | 0, s => s
  | n + 1, s => batchMintLoop to' meta n (mintOne to' meta s)

/-- Source: `batch_mint` (action 0x02); `sender` is `ctx.sender` and
`contract_address` is `ctx.contract_address`.  Note the third notification
argument is `from = state.total_count` read before the loop. -/
def batch_mint (sender contract_address : Address) (s : NFTContractState)
    (to' : Address) (count : Nat) (status mpg_time exp_time : String) :
    Except NftErr (NFTContractState × List EventGroup) :=
  if sender ≠ s.contract_owner then .error .Unauthorized
  else
    let frm := s.total_count
    let s1 := batchMintLoop to' { status := status, mpg_time := mpg_time, exp_time := exp_time } count s
    .ok (s1,
      [[{ target := s1.user_contract_address
          shortname := mint_product
          args := [.addr to', .addr contract_address, .nat frm,
                   .nat count, .str s1.product_id] }]])

/-- Source: `mint_callback` (callback 0x04); the panic on a failed event is
modelled as the `ExternalCallFailed` error. -/
def mint_callback (success : Bool) (s : NFTContractState) :
    Except NftErr (NFTContractState × List EventGroup) :=
  if success then .ok (s, []) else .error .ExternalCallFailed

/-- The NFT contract's post-initialization call surface. -/
inductive NftOp where
  | approveOp (sender : Address) (approved : Option Address) (token_id : Nat)
  | setApprovalForAll (sender operator : Address) (approved : Bool)
  | transferFrom (sender contract_address frm to' : Address) (token_id : Nat)
  | batchMint (sender contract_address to' : Address) (count : Nat)
      (status mpg_time exp_time : String)
  | mintCallback (success : Bool)

/-- Step function dispatching one invocation of the NFT contract. -/
def stepNft : NftOp → NFTContractState →
    Except NftErr (NFTContractState × List EventGroup)
  | .approveOp sender approved token_id, s =>
    (approve sender s approved token_id).map (fun s' => (s', []))
  | .setApprovalForAll sender operator approved, s =>
    (set_approval_for_all sender s operator approved).map (fun s' => (s', []))
  | .transferFrom sender ca frm to' token_id, s =>
    transfer_from sender ca s frm to' token_id
  | .batchMint sender ca to' count status mpg exp, s =>
    batch_mint sender ca s to' count status mpg exp
  | .mintCallback success, s => mint_callback success s

/-- State observed by later calls: the new state on success, the pre-call
state when the invocation aborted. -/
def execNft (op : NftOp) (s : NFTContractState) : NFTContractState :=
  match stepNft op s with
  | .ok (s', _) => s'
  | .error _ => s

/-- States of the NFT contract reachable from the source's `initialize`. -/
inductive ReachableNft : NFTContractState → Prop where
  | init (sender : Address) (name symbol product_id : String)
      (user_contract_address : Address) (uri_template : String) :
      ReachableNft (init sender name symbol product_id
        user_contract_address uri_template)
  | step (s : NFTContractState) (op : NftOp) (s' : NFTContractState)
      (ev : List EventGroup) (hs : ReachableNft s)
      (hstep : stepNft op s = .ok (s', ev)) : ReachableNft s'

end Nft

/-- Error taxonomy of the panics in `src/user/src/lib.rs`: explicit
owner-gate panics are `Unauthorized`; `Option::unwrap` panics on missing
wallet or product-list entries are `NotFound`. -/
inductive UserErr where
  | NotFound
  | Unauthorized
deriving DecidableEq

namespace UserDir

/-- Source: `UserMetadata` in `src/user/src/lib.rs`. -/
structure UserMetadata where
  id : String
  wallet : Address
deriving DecidableEq

/-- Source: `ProductMetadata` in `src/user/src/lib.rs`. -/
structure ProductMetadata where
  contract_address : Address
  id : Nat
deriving DecidableEq

/-- State of the user/directory contract (source: `NFTContractState` in
`src/user/src/lib.rs`). -/
structure NFTContractState where
  name : String
  symbol : String
  owners : AMap Nat Address
  token_approvals : AMap Nat Address
  operator_approvals : List OperatorApproval
  uri_template : String
  user_list : AMap Nat UserMetadata
  contract_owner : Address
  wallet_owner : AMap Address Nat
  user_product_list : AMap Nat (List ProductMetadata)
  total_count : Nat
deriving DecidableEq

/-- Source: `initialize` in `src/user/src/lib.rs`; `sender` is `ctx.sender`. -/
def init (sender : Address) (name symbol uri_template : String) :
    NFTContractState :=
  { name := name
    symbol := symbol
    owners := AMap.new
    token_approvals := AMap.new
    operator_approvals := []
    uri_template := uri_template
    user_list := AMap.new
    contract_owner := sender
    wallet_owner := AMap.new
    user_product_list := AMap.new
    total_count := 0 }

/-- Source: `mint` (action 0x01) in `src/user/src/lib.rs`: registers a user
and (re)binds the wallet index; note it never touches `user_product_list`. -/
def mint (sender : Address) (s : NFTContractState) (user_id : String)
    (wallet : Address) : Except UserErr NFTContractState :=
  if sender ≠ s.contract_owner then .error .Unauthorized
  else
    .ok { s with
      total_count := s.total_count + 1
      user_list := s.user_list.insert (s.total_count + 1)
        { id := user_id, wallet := wallet }
      wallet_owner := s.wallet_owner.insert wallet (s.total_count + 1) }

/-- Source: `transfer_product` (action 0x02) in `src/user/src/lib.rs`.
The four `unwrap` calls are modelled as `NotFound` errors; the insertion
into the destination list happens (in `s1`) before the source-wallet
lookups, and is discarded when a later lookup aborts, mirroring a panic
aborting the whole invocation. -/
def transfer_product (sender : Address) (s : NFTContractState)
    (frm to' product_address : Address) (product_id : Nat) :
    Except UserErr NFTContractState :=
  if sender ≠ s.contract_owner then .error .Unauthorized
  else
    match s.wallet_owner.get to' with
    | none => .error .NotFound
    | some to_id =>
      match s.user_product_list.get to_id with
      | none => .error .NotFound
      | some to_list =>
        let product_uri : ProductMetadata :=
          { contract_address := product_address, id := product_id }
        let s1 := { s with user_product_list :=
          s.user_product_list.insert to_id (SVinsert product_uri to_list) }
        match s1.wallet_owner.get frm with
        | none => .error .NotFound
        | some from_id =>
          match s1.user_product_list.get from_id with
          | none => .error .NotFound
          | some from_list =>
            .ok { s1 with user_product_list :=
              s1.user_product_list.insert from_id (SVremove product_uri from_list) }

/-- Source: `mint_product` (action 0x03) in `src/user/src/lib.rs`.  The two
`unwrap` calls are modelled as `NotFound` errors. -/
def mint_product (sender : Address) (s : NFTContractState)
    (to' product_address : Address) (product_id : Nat) :
    Except UserErr NFTContractState :=
  if sender ≠ s.contract_owner then .error .Unauthorized
  else
    match s.wallet_owner.get to' with
    | none => .error .NotFound
    | some to_id =>
      match s.user_product_list.get to_id with
      | none => .error .NotFound
      | some to_list =>
        let product_uri : ProductMetadata :=
          { contract_address := product_address, id := product_id }
        .ok { s with user_product_list :=
          s.user_product_list.insert to_id (SVinsert product_uri to_list) }

/-- The user/directory contract's post-initialization call surface. -/
inductive UserOp where
  | mintOp (sender : Address) (user_id : String) (wallet : Address)
  | transferProduct (sender frm to' product_address : Address) (product_id : Nat)
  | mintProduct (sender to' product_address : Address) (product_id : Nat)

/-- Step function dispatching one invocation of the user contract. -/
def stepUser : UserOp → NFTContractState → Except UserErr NFTContractState
  | .mintOp sender user_id wallet, s => mint sender s user_id wallet
  | .transferProduct sender frm to' pa pid, s =>
    transfer_product sender s frm to' pa pid
  | .mintProduct sender to' pa pid, s => mint_product sender s to' pa pid

/-- State observed by later calls: the new state on success, the pre-call
state when the invocation aborted. -/
def execUser (op : UserOp) (s : NFTContractState) : NFTContractState :=
  match stepUser op s with
  | .ok s' => s'
  | .error _ => s

/-- States of the user contract reachable from the source's `initialize`. -/
inductive ReachableUser : NFTContractState → Prop where
  | init (sender : Address) (name symbol uri_template : String) :
      ReachableUser (init sender name symbol uri_template)
  | step (s : NFTContractState) (op : UserOp) (s' : NFTContractState)
      (hs : ReachableUser s) (hstep : stepUser op s = .ok s') :
      ReachableUser s'

end UserDir


/-! ### Invariants and sample states -/

/-- Invariant: every token with an entry in the approvals map also has an
entry in the owners map. -/
def Nft.ApprovalInv (s : Nft.NFTContractState) : Prop :=
  ∀ t a, s.token_approvals.get t = some a → ∃ o, s.owners.get t = some o

/-- Invariant: no operator approval is self-referential. -/
def Nft.OperatorInv (s : Nft.NFTContractState) : Prop :=
  ∀ e ∈ s.operator_approvals, e.owner ≠ e.operator

/-- Combined NFT-contract state invariant. -/
def Nft.StateInv (s : Nft.NFTContractState) : Prop :=
  Nft.ApprovalInv s ∧ Nft.OperatorInv s

/-- Sample NFT state: fresh contract, owner 0, directory contract 9. -/
def nftS0 : Nft.NFTContractState := Nft.init 0 "nm" "sy" "pd" 9 "ur"

/-- Events emitted by `batch_mint(caller 0, this 7, to 1, count 2)` on
`nftS0`. -/
def nftS1ev : List EventGroup :=
  [[{ target := 9, shortname := Nft.mint_product,
      args := [.addr 1, .addr 7, .nat 0, .nat 2, .str "pd"] }]]

/-- `nftS0` after `batch_mint(caller 0, this 7, to 1, count 2)`: tokens 1
and 2 exist, both owned by address 1. -/
def nftS1 : Nft.NFTContractState :=
  Nft.execNft (.batchMint 0 7 1 2 "a" "b" "c") nftS0

/-- `nftS1` after the contract owner 0 transfers token 1 from 1 to 2. -/
def nftS2 : Nft.NFTContractState :=
  Nft.execNft (.transferFrom 0 7 1 2 1) nftS1

/-- Events emitted by that transfer. -/
def nftS2ev : List EventGroup :=
  [[{ target := 9, shortname := Nft.transfer_product,
      args := [.addr 1, .addr 2, .addr 7, .nat 1, .str "pd"] }]]

/-- `nftS1` after token owner 1 approves delegate 5 on token 1. -/
def nftS3 : Nft.NFTContractState :=
  Nft.execNft (.approveOp 1 (some 5) 1) nftS1

/-- `nftS0` after caller 0 grants operator status to 1. -/
def nftS4 : Nft.NFTContractState :=
  Nft.execNft (.setApprovalForAll 0 1 true) nftS0

/-- Sample user/directory state: fresh contract, owner 0. -/
def uS0 : UserDir.NFTContractState := UserDir.init 0 "n" "s" "u"

/-- `uS0` after registering user "alice" with wallet 5 (user id 1). -/
def uS1 : UserDir.NFTContractState :=
  UserDir.execUser (.mintOp 0 "alice" 5) uS0

/-- Projection of an NFT-contract action result onto its emitted events. -/
def eventsOfNft (r : Except NftErr (Nft.NFTContractState × List EventGroup)) :
    Option (List EventGroup) :=
  match r with
  | .ok (_, ev) => some ev
  | .error _ => none

/-- Scenario state for the batch-mint notification claim: fresh contract,
owner 0, directory contract 5, product id "pid". -/
def c2S0 : Nft.NFTContractState := Nft.init 0 "n" "sy" "pid" 5 "u"

/-- `c2S0` after `batch_mint(caller 0, this 7, to 1, count 3)`. -/
def c2S1 : Nft.NFTContractState :=
  Nft.execNft (.batchMint 0 7 1 3 "a" "b" "c") c2S0

/-! ### Proofs -/

theorem getL_insL [DecidableEq α] (l : List (α × β)) (k k' : α) (v : β) :
    getL (insL l k v) k' = if k' = k then some v else getL l k' := by
  induction l with
  | nil =>
    by_cases h : k' = k <;> simp [insL, getL, h]
  | cons hd tl ih =>
    obtain ⟨a, b⟩ := hd
    by_cases hka : k = a
    · subst hka
      by_cases h : k' = k <;> simp [insL, getL, h]
    · by_cases h : k' = a
      · subst h
        have hkk : ¬ k' = k := fun he => hka he.symm
        simp [insL, getL, hka, hkk]
      · simp [insL, getL, hka, h, ih]

theorem getL_remL [DecidableEq α] (l : List (α × β)) (k k' : α) :
    getL (remL l k) k' = if k' = k then none else getL l k' := by
  induction l with
  | nil =>
    by_cases h : k' = k <;> simp [remL, getL, h]
  | cons hd tl ih =>
    obtain ⟨a, b⟩ := hd
    by_cases hak : a = k
    · subst hak
      by_cases h : k' = a
      · subst h
        simp [remL, getL, ih]
      · simp [remL, getL, h, ih]
    · by_cases h : k' = a
      · have hkk : k' ≠ k := by rw [h]; exact hak
        simp [remL, getL, hak, h, hkk]
      · simp [remL, getL, hak, h, ih]

theorem AMap.get_insert [DecidableEq α]
    (m : AMap α β) (k k' : α) (v : β) :
    (m.insert k v).get k' = if k' = k then some v else m.get k' :=
  getL_insL m.entries k k' v

theorem AMap.get_remove [DecidableEq α]
    (m : AMap α β) (k k' : α) :
    (m.remove k).get k' = if k' = k then none else m.get k' :=
  getL_remL m.entries k k'

theorem mem_SVinsert [DecidableEq α] {e x : α} {l : List α} :
    e ∈ SVinsert x l → e = x ∨ e ∈ l := by
  intro he
  unfold SVinsert at he
  by_cases h : x ∈ l
  · rw [if_pos h] at he
    exact Or.inr he
  · rw [if_neg h] at he
    exact List.mem_cons.mp he

theorem mem_SVremove [DecidableEq α] {e x : α} {l : List α} :
    e ∈ SVremove x l → e ∈ l := by
  induction l with
  | nil => intro he; simp [SVremove] at he
  | cons y rest ih =>
    intro he
    by_cases h : y = x
    · simp only [SVremove, if_pos h] at he
      exact List.mem_cons_of_mem y (ih he)
    · simp only [SVremove, if_neg h] at he
      rcases List.mem_cons.mp he with h1 | h1
      · exact h1 ▸ List.mem_cons_self y rest
      · exact List.mem_cons_of_mem y (ih h1)

theorem except_map_ok {ε α β : Type} {f : α → β} {e : Except ε α} {b : β}
    (h : e.map f = .ok b) : ∃ a, e = .ok a ∧ f a = b := by
  cases e with
  | ok a => exact ⟨a, rfl, by simpa [Except.map] using h⟩
  | error err => simp [Except.map] at h

theorem Nft.batchMintLoop_total_count (to' : Address) (m : UriMetadata)
    (n : Nat) (s : NFTContractState) :
    (batchMintLoop to' m n s).total_count = s.total_count + n := by
  induction n generalizing s with
  | zero => simp [batchMintLoop]
  | succ n ih =>
    show (batchMintLoop to' m n (mintOne to' m s)).total_count = _
    rw [ih]
    simp only [mintOne]
    omega

theorem Nft.batchMintLoop_owners_get (to' : Address) (m : UriMetadata)
    (n : Nat) (s : NFTContractState) (k : Nat) :
    (batchMintLoop to' m n s).owners.get k =
      if s.total_count < k ∧ k ≤ s.total_count + n then some to'
      else s.owners.get k := by
  induction n generalizing s with
  | zero =>
    have h0 : ¬ (s.total_count < k ∧ k ≤ s.total_count) := by omega
    simp [batchMintLoop, h0]
  | succ n ih =>
    show (batchMintLoop to' m n (mintOne to' m s)).owners.get k = _
    rw [ih]
    simp only [mintOne]
    rw [AMap.get_insert]
    split_ifs <;> first | rfl | omega

theorem Nft.batchMintLoop_uri_get (to' : Address) (m : UriMetadata)
    (n : Nat) (s : NFTContractState) (k : Nat) :
    (batchMintLoop to' m n s).token_uri_details.get k =
      if s.total_count < k ∧ k ≤ s.total_count + n then some m
      else s.token_uri_details.get k := by
  induction n generalizing s with
  | zero =>
    have h0 : ¬ (s.total_count < k ∧ k ≤ s.total_count) := by omega
    simp [batchMintLoop, h0]
  | succ n ih =>
    show (batchMintLoop to' m n (mintOne to' m s)).token_uri_details.get k = _
    rw [ih]
    simp only [mintOne]
    rw [AMap.get_insert]
    split_ifs <;> first | rfl | omega

theorem Nft.batchMintLoop_token_approvals (to' : Address) (m : UriMetadata)
    (n : Nat) (s : NFTContractState) :
    (batchMintLoop to' m n s).token_approvals = s.token_approvals := by
  induction n generalizing s with
  | zero => rfl
  | succ n ih =>
    show (batchMintLoop to' m n (mintOne to' m s)).token_approvals = _
    rw [ih]
    rfl

theorem Nft.batchMintLoop_operator_approvals (to' : Address) (m : UriMetadata)
    (n : Nat) (s : NFTContractState) :
    (batchMintLoop to' m n s).operator_approvals = s.operator_approvals := by
  induction n generalizing s with
  | zero => rfl
  | succ n ih =>
    show (batchMintLoop to' m n (mintOne to' m s)).operator_approvals = _
    rw [ih]
    rfl

theorem Nft._approve_owners (s : NFTContractState) (approved : Option Address)
    (t : Nat) : (s._approve approved t).owners = s.owners := by
  cases approved <;> rfl

theorem Nft._approve_operator_approvals (s : NFTContractState)
    (approved : Option Address) (t : Nat) :
    (s._approve approved t).operator_approvals = s.operator_approvals := by
  cases approved <;> rfl

theorem Nft._approve_approvals_get_ne (s : NFTContractState)
    (approved : Option Address) (t t' : Nat) (hne : t' ≠ t) :
    (s._approve approved t).token_approvals.get t' = s.token_approvals.get t' := by
  cases approved <;>
    simp [NFTContractState._approve, AMap.get_insert, AMap.get_remove, hne]

theorem Nft._approve_ApprovalInv {s : NFTContractState} {t : Nat} {o : Address}
    (hA : ApprovalInv s) (howner : s.owners.get t = some o)
    (approved : Option Address) : ApprovalInv (s._approve approved t) := by
  intro t' a' ha'
  rw [_approve_owners]
  by_cases hne : t' = t
  · subst hne
    exact ⟨o, howner⟩
  · rw [_approve_approvals_get_ne s approved t t' hne] at ha'
    exact hA t' a' ha'

theorem Nft._transfer_ok {s s1 : NFTContractState} {frm to' : Address} {t : Nat}
    (h : s._transfer frm to' t = .ok s1) :
    s.owners.get t = some frm ∧
    s1 = { s._approve none t with
           owners := (s._approve none t).owners.insert t to' } := by
  unfold NFTContractState._transfer at h
  split at h
  · simp at h
  · rename_i owner heq
    split at h
    · simp at h
    · rename_i hno
      have ho : owner = frm := by
        by_contra hc
        exact hno hc
      simp only [Except.ok.injEq] at h
      subst ho
      exact ⟨heq, h.symm⟩

theorem Nft.approve_ok {s s1 : NFTContractState} {sender : Address}
    {approved : Option Address} {t : Nat}
    (h : approve sender s approved t = .ok s1) :
    ∃ owner, s.owners.get t = some owner ∧
      (sender = owner ∨ s.is_approved_for_all owner sender) ∧
      s1 = s._approve approved t := by
  unfold approve at h
  split at h
  · simp at h
  · rename_i owner heq
    split at h
    · simp at h
    · rename_i hcond
      simp only [Except.ok.injEq] at h
      rcases not_and_or.mp hcond with hc | hc
      · exact ⟨owner, heq, Or.inl (not_not.mp hc), h.symm⟩
      · exact ⟨owner, heq, Or.inr (not_not.mp hc), h.symm⟩

theorem Nft.set_approval_for_all_ok {s s1 : NFTContractState}
    {sender operator : Address} {approved : Bool}
    (h : set_approval_for_all sender s operator approved = .ok s1) :
    operator ≠ sender ∧
    s1.token_approvals = s.token_approvals ∧
    s1.owners = s.owners ∧
    (∀ e ∈ s1.operator_approvals,
      e = OperatorApproval.mk sender operator ∨ e ∈ s.operator_approvals) := by
  unfold set_approval_for_all at h
  split at h
  · simp at h
  · rename_i hne
    split at h
    · simp only [Except.ok.injEq] at h
      subst h
      exact ⟨hne, rfl, rfl, fun e he => mem_SVinsert he⟩
    · simp only [Except.ok.injEq] at h
      subst h
      exact ⟨hne, rfl, rfl, fun e he => Or.inr (mem_SVremove he)⟩

theorem Nft.stepNft_inv {s s' : NFTContractState} {op : NftOp}
    {ev : List EventGroup} (hinv : StateInv s)
    (h : stepNft op s = .ok (s', ev)) : StateInv s' := by
  obtain ⟨hA, hO⟩ := hinv
  cases op with
  | approveOp sender approved t =>
    obtain ⟨s1, hs1, hpair⟩ := except_map_ok h
    obtain ⟨rfl, rfl⟩ := Prod.mk.injEq .. ▸ hpair
    obtain ⟨owner, heq, _, rfl⟩ := approve_ok hs1
    refine ⟨_approve_ApprovalInv hA heq approved, ?_⟩
    intro e he
    rw [_approve_operator_approvals] at he
    exact hO e he
  | setApprovalForAll sender operator approved =>
    obtain ⟨s1, hs1, hpair⟩ := except_map_ok h
    obtain ⟨rfl, rfl⟩ := Prod.mk.injEq .. ▸ hpair
    obtain ⟨hne, happr, howners, hops⟩ := set_approval_for_all_ok hs1
    constructor
    · intro t a ha
      rw [happr] at ha
      rw [howners]
      exact hA t a ha
    · intro e he
      rcases hops e he with rfl | he'
      · exact fun hc => hne hc.symm
      · exact hO e he'
  | transferFrom sender ca frm to' t =>
    simp only [stepNft, transfer_from] at h
    split at h
    · simp at h
    · split at h
      · simp at h
      · rename_i s1 htr
        simp only [Except.ok.injEq, Prod.mk.injEq] at h
        obtain ⟨rfl, rfl⟩ := h
        obtain ⟨heq, rfl⟩ := _transfer_ok htr
        constructor
        · intro t' a' ha'
          simp only [_approve_owners]
          by_cases hne : t' = t
          · subst hne
            exact ⟨to', by rw [AMap.get_insert, if_pos rfl]⟩
          · have ha'' : (s._approve none t).token_approvals.get t' =
                s.token_approvals.get t' := _approve_approvals_get_ne s none t t' hne
            rw [ha''] at ha'
            obtain ⟨o, ho⟩ := hA t' a' ha'
            exact ⟨o, by rw [AMap.get_insert, if_neg hne]; exact ho⟩
        · intro e he
          rw [_approve_operator_approvals] at he
          exact hO e he
  | batchMint sender ca to' count status mpg exp =>
    simp only [stepNft, batch_mint] at h
    split at h
    · simp at h
    · simp only [Except.ok.injEq, Prod.mk.injEq] at h
      obtain ⟨rfl, rfl⟩ := h
      constructor
      · intro t a ha
        rw [batchMintLoop_token_approvals] at ha
        obtain ⟨o, ho⟩ := hA t a ha
        rw [batchMintLoop_owners_get]
        by_cases hin : s.total_count < t ∧ t ≤ s.total_count + count
        · exact ⟨to', by rw [if_pos hin]⟩
        · exact ⟨o, by rw [if_neg hin]; exact ho⟩
      · intro e he
        rw [batchMintLoop_operator_approvals] at he
        exact hO e he
  | mintCallback success =>
    simp only [stepNft, mint_callback] at h
    split at h
    · simp only [Except.ok.injEq, Prod.mk.injEq] at h
      obtain ⟨rfl, rfl⟩ := h
      exact ⟨hA, hO⟩
    · simp at h

theorem Nft.reachable_inv {s : NFTContractState} (h : ReachableNft s) :
    StateInv s := by
  induction h with
  | init sender name symbol product_id uca uri =>
    constructor
    · intro t a ha
      simp [init, AMap.get, AMap.new, getL] at ha
    · intro e he
      simp [init] at he
  | step s op s' ev hs hstep ih => exact stepNft_inv ih hstep

theorem AMap.get_of_entries_nil [DecidableEq α] {m : AMap α β}
    (h : m.entries = []) (k : α) : m.get k = none := by
  unfold AMap.get
  rw [h]
  rfl

theorem UserDir.stepUser_empty {s s' : NFTContractState} {op : UserOp}
    (hinv : s.user_product_list.entries = [])
    (h : stepUser op s = .ok s') : s'.user_product_list.entries = [] := by
  cases op with
  | mintOp sender uid wallet =>
    simp only [stepUser, mint] at h
    split at h
    · simp at h
    · simp only [Except.ok.injEq] at h
      subst h
      exact hinv
  | transferProduct sender frm to' pa pid =>
    simp only [stepUser, transfer_product] at h
    split at h
    · simp at h
    · split at h
      · simp at h
      · split at h
        · simp at h
        · rename_i to_list heq
          rw [AMap.get_of_entries_nil hinv] at heq
          cases heq
  | mintProduct sender to' pa pid =>
    simp only [stepUser, mint_product] at h
    split at h
    · simp at h
    · split at h
      · simp at h
      · split at h
        · simp at h
        · rename_i to_list heq
          rw [AMap.get_of_entries_nil hinv] at heq
          cases heq

theorem UserDir.reachable_empty {s : NFTContractState} (h : ReachableUser s) :
    s.user_product_list.entries = [] := by
  induction h with
  | init sender name symbol uri => rfl
  | step s op s' hs hstep ih => exact stepUser_empty ih hstep

/-- C3: for every state and token, if `transfer_from` succeeds then the token
is owned by the transfer target and its single-token delegate approval is
cleared; and when the caller is the contract owner but the token's actual
owner differs from the asserted `from`, it fails with `OwnershipMismatch`. -/
theorem Nft.transfer_from_postcondition :
    ∀ (s : NFTContractState) (sender ca frm to' : Address) (t : Nat),
      (∀ s' ev, transfer_from sender ca s frm to' t = .ok (s', ev) →
        s'.owners.get t = some to' ∧ s'.get_approved t = none) ∧
      (sender = s.contract_owner →
        ∀ o, s.owners.get t = some o → o ≠ frm →
          transfer_from sender ca s frm to' t = .error .OwnershipMismatch) := by
  intro s sender ca frm to' t
  constructor
  · intro s' ev h
    unfold transfer_from at h
    split at h
    · simp at h
    · split at h
      · simp at h
      · rename_i s1 htr
        simp only [Except.ok.injEq, Prod.mk.injEq] at h
        obtain ⟨rfl, rfl⟩ := h
        obtain ⟨heq, rfl⟩ := _transfer_ok htr
        constructor
        · show ((s._approve none t).owners.insert t to').get t = some to'
          rw [AMap.get_insert, if_pos rfl]
        · show (s.token_approvals.remove t).get t = none
          rw [AMap.get_remove, if_pos rfl]
  · intro hw o ho hne
    unfold transfer_from
    have hg : ¬ (s.contract_owner ≠ sender) := by
      rw [hw]
      exact fun hc => hc rfl
    rw [if_neg hg]
    have h1 : s._transfer frm to' t = .error .OwnershipMismatch := by
      unfold NFTContractState._transfer
      rw [ho]
      simp [hne]
    rw [h1]

/-- C4: `transfer_from` is gated solely on the caller being the contract
owner: with the contract owner calling it succeeds whenever the asserted
`from` owns the token (no owner/approved/operator condition is consulted),
and with any other caller it fails with `Unauthorized`, the observable state
being unchanged. -/
theorem Nft.transfer_from_owner_gated :
    ∀ (s : NFTContractState) (sender ca frm to' : Address) (t : Nat),
      (sender = s.contract_owner → s.owners.get t = some frm →
        ∃ s' ev, transfer_from sender ca s frm to' t = .ok (s', ev)) ∧
      (sender ≠ s.contract_owner →
        transfer_from sender ca s frm to' t = .error .Unauthorized ∧
        execNft (.transferFrom sender ca frm to' t) s = s) := by
  intro s sender ca frm to' t
  constructor
  · intro hw ho
    unfold transfer_from
    have hg : ¬ (s.contract_owner ≠ sender) := by
      rw [hw]
      exact fun hc => hc rfl
    rw [if_neg hg]
    have h1 : s._transfer frm to' t =
        .ok { s._approve none t with
              owners := (s._approve none t).owners.insert t to' } := by
      unfold NFTContractState._transfer
      rw [ho]
      simp
    rw [h1]
    exact ⟨_, _, rfl⟩
  · intro hw
    have hg : s.contract_owner ≠ sender := fun hc => hw hc.symm
    have h1 : transfer_from sender ca s frm to' t = .error .Unauthorized := by
      unfold transfer_from
      rw [if_pos hg]
    refine ⟨h1, ?_⟩
    unfold execNft
    simp only [stepNft]
    rw [h1]

/-- C6: for a minted token, `approve` succeeds exactly when the caller is the
token's owner or a registered operator of the owner; in every other case
(including the caller being the token's current approved delegate) it fails
with `Unauthorized`. -/
theorem Nft.approve_auth_characterization :
    ∀ (s : NFTContractState) (sender : Address) (approved : Option Address)
      (t : Nat) (o : Address), s.owners.get t = some o →
      ((∃ s', approve sender s approved t = .ok s') ↔
        (sender = o ∨ s.is_approved_for_all o sender)) ∧
      (¬ (sender = o ∨ s.is_approved_for_all o sender) →
        approve sender s approved t = .error .Unauthorized) := by
  intro s sender approved t o ho
  have hbody : approve sender s approved t =
      if sender ≠ o ∧ ¬ s.is_approved_for_all o sender then .error .Unauthorized
      else .ok (s._approve approved t) := by
    unfold approve
    rw [ho]
  constructor
  · constructor
    · rintro ⟨s', hs'⟩
      obtain ⟨owner, heq, hcond, _⟩ := approve_ok hs'
      rw [ho] at heq
      cases heq
      exact hcond
    · intro hcond
      rw [hbody]
      have : ¬ (sender ≠ o ∧ ¬ s.is_approved_for_all o sender) := by
        rcases hcond with hc | hc
        · exact fun hd => hd.1 hc
        · exact fun hd => hd.2 hc
      rw [if_neg this]
      exact ⟨_, rfl⟩
  · intro hcond
    rw [hbody]
    rw [not_or] at hcond
    rw [if_pos ⟨hcond.1, hcond.2⟩]

/-- C5: with the contract owner calling, `batch_mint` of `count` tokens
succeeds, increases `total_count` by exactly `count`, assigns the consecutive
fresh ids `total_count+1 .. total_count+count` all owned by the recipient and
each carrying its own copy of the metadata, and emits exactly one outbound
notification regardless of `count`. -/
theorem Nft.batch_mint_correct :
    ∀ (s : NFTContractState) (sender ca to' : Address) (count : Nat)
      (status mpg exp : String),
      sender = s.contract_owner →
      (∀ k o, s.owners.get k = some o → k ≤ s.total_count) →
      ∃ s' ev, batch_mint sender ca s to' count status mpg exp = .ok (s', ev) ∧
        s'.total_count = s.total_count + count ∧
        (∀ i, 1 ≤ i → i ≤ count →
          s'.owners.get (s.total_count + i) = some to' ∧
          s'.token_uri_details.get (s.total_count + i) =
            some { status := status, mpg_time := mpg, exp_time := exp } ∧
          s.owners.get (s.total_count + i) = none) ∧
        ev.length = 1 := by
  intro s sender ca to' count status mpg exp hw hhwm
  have hg : ¬ (sender ≠ s.contract_owner) := fun hc => hc hw
  refine ⟨batchMintLoop to' { status := status, mpg_time := mpg, exp_time := exp } count s,
    [[{ target := (batchMintLoop to'
          { status := status, mpg_time := mpg, exp_time := exp } count s).user_contract_address,
        shortname := mint_product,
        args := [.addr to', .addr ca, .nat s.total_count, .nat count,
          .str (batchMintLoop to'
            { status := status, mpg_time := mpg, exp_time := exp } count s).product_id] }]],
    ?_, ?_, ?_, rfl⟩
  · unfold batch_mint
    rw [if_neg hg]
  · exact batchMintLoop_total_count ..
  · intro i h1 h2
    refine ⟨?_, ?_, ?_⟩
    · rw [batchMintLoop_owners_get, if_pos (by omega)]
    · rw [batchMintLoop_uri_get, if_pos (by omega)]
    · cases hcase : s.owners.get (s.total_count + i) with
      | none => rfl
      | some o =>
        have := hhwm _ o hcase
        omega

/-- C7: in every reachable state of the NFT contract, every token id with an
entry in the token-approvals map also has an entry in the owners map. -/
theorem Nft.approval_implies_owner :
    ∀ s : NFTContractState, ReachableNft s →
      ∀ t a, s.token_approvals.get t = some a → ∃ o, s.owners.get t = some o :=
  fun _ h => (reachable_inv h).1

/-- C8: granting operator status to oneself always fails with
`InvalidSelfReference`, and in every reachable state every operator-approval
entry has distinct owner and operator. -/
theorem Nft.no_self_operator_approval :
    (∀ (sender : Address) (s : NFTContractState) (approved : Bool),
      set_approval_for_all sender s sender approved =
        .error .InvalidSelfReference) ∧
    (∀ s : NFTContractState, ReachableNft s →
      ∀ e ∈ s.operator_approvals, e.owner ≠ e.operator) := by
  constructor
  · intro sender s approved
    unfold set_approval_for_all
    rw [if_pos rfl]
  · intro s h
    exact (reachable_inv h).2

/-- C9: every operation of both contracts is all-or-nothing: each invocation
either returns a new state (with notifications) or fails with an error, and
on failure the state observed by later calls is the pre-call state. -/
theorem ops_all_or_nothing :
    (∀ (op : Nft.NftOp) (s : Nft.NFTContractState),
      (∃ r, Nft.stepNft op s = .ok r) ∨
      (∃ e, Nft.stepNft op s = .error e ∧ Nft.execNft op s = s)) ∧
    (∀ (op : UserDir.UserOp) (s : UserDir.NFTContractState),
      (∃ r, UserDir.stepUser op s = .ok r) ∨
      (∃ e, UserDir.stepUser op s = .error e ∧ UserDir.execUser op s = s)) := by
  constructor
  · intro op s
    cases h : Nft.stepNft op s with
    | ok r => exact Or.inl ⟨r, rfl⟩
    | error e =>
      refine Or.inr ⟨e, rfl, ?_⟩
      unfold Nft.execNft
      rw [h]
  · intro op s
    cases h : UserDir.stepUser op s with
    | ok r => exact Or.inl ⟨r, rfl⟩
    | error e =>
      refine Or.inr ⟨e, rfl, ?_⟩
      unfold UserDir.execUser
      rw [h]

/-- C10: in every reachable state of the user/directory contract the
`user_product_list` map is empty, and consequently `mint_product` and
`transfer_product` abort on every input. -/
theorem UserDir.directory_product_ops_abort :
    ∀ s : NFTContractState, ReachableUser s →
      s.user_product_list.entries = [] ∧
      (∀ (sender to' pa : Address) (pid : Nat),
        ∃ e, mint_product sender s to' pa pid = .error e) ∧
      (∀ (sender frm to' pa : Address) (pid : Nat),
        ∃ e, transfer_product sender s frm to' pa pid = .error e) := by
  intro s h
  have hempty := reachable_empty h
  refine ⟨hempty, ?_, ?_⟩
  · intro sender to' pa pid
    by_cases hs : sender ≠ s.contract_owner
    · refine ⟨.Unauthorized, ?_⟩
      unfold mint_product
      rw [if_pos hs]
    · refine ⟨.NotFound, ?_⟩
      unfold mint_product
      rw [if_neg hs]
      cases hw : s.wallet_owner.get to' with
      | none => simp [hw]
      | some to_id => simp [hw, AMap.get_of_entries_nil hempty]
  · intro sender frm to' pa pid
    by_cases hs : sender ≠ s.contract_owner
    · refine ⟨.Unauthorized, ?_⟩
      unfold transfer_product
      rw [if_pos hs]
    · refine ⟨.NotFound, ?_⟩
      unfold transfer_product
      rw [if_neg hs]
      cases hw : s.wallet_owner.get to' with
      | none => simp [hw]
      | some to_id => simp [hw, AMap.get_of_entries_nil hempty]

/-- C1: code-bug evidence: in the reachable directory state `uS1` the wallet
5 is registered (`wallet_owner` maps it to user id 1) and the caller 0 is
the contract owner, yet `mint_product` aborts with `NotFound` instead of
inserting the product reference, because `mint` registers the wallet without
ever creating the user's (empty) product set in `user_product_list`. -/
theorem UserDir.mint_product_registered_wallet_aborts :
    uS1.contract_owner = 0 ∧
    uS1.wallet_owner.get 5 = some 1 ∧
    mint_product 0 uS1 5 9 77 = .error .NotFound :=
  ⟨rfl, rfl, rfl⟩

/-- C2 counterexample: in the scenario initialize(owner 0) followed by
`batch_mint(caller 0, this 7, to 1, count 3)`, the single notification's
third argument is `.nat 0` — the pre-batch `total_count` — and not `.nat 1`,
the id of the first token minted, as the claim states. -/
theorem Nft.batch_mint_notification_counterexample :
    eventsOfNft (batch_mint 0 7 c2S0 1 3 "a" "b" "c") =
      some [[{ target := 5, shortname := mint_product,
               args := [.addr 1, .addr 7, .nat 0, .nat 3, .str "pid"] }]] ∧
    eventsOfNft (batch_mint 0 7 c2S0 1 3 "a" "b" "c") ≠
      some [[{ target := 5, shortname := mint_product,
               args := [.addr 1, .addr 7, .nat 1, .nat 3, .str "pid"] }]] :=
  ⟨rfl, by decide⟩

/-- C2 (amended): the scenario yields tokens {1,2,3} all owned by 1,
`total_count = 3`, and exactly one outbound notification whose ordered
arguments are (to, this_contract, 0, 3, product_id) — the id argument being
the pre-batch `total_count`, one less than the id of the first token minted. -/
theorem Nft.batch_mint_scenario_amended :
    c2S1.owners.entries = [(1, 1), (2, 1), (3, 1)] ∧
    c2S1.total_count = 3 ∧
    eventsOfNft (batch_mint 0 7 c2S0 1 3 "a" "b" "c") =
      some [[{ target := 5, shortname := mint_product,
               args := [.addr 1, .addr 7, .nat 0, .nat 3, .str "pid"] }]] :=
  ⟨rfl, rfl, rfl⟩

/-- Witness for C3 at the concrete state `nftS1` (tokens 1, 2 owned by 1):
the successful transfer of token 1 to address 2 leaves it owned by 2 with no
approval, and asserting the wrong owner 5 yields `OwnershipMismatch`. -/
theorem Nft.transfer_from_postcondition_witness :
    nftS2.owners.get 1 = some 2 ∧ nftS2.get_approved 1 = none ∧
    transfer_from 0 7 nftS1 5 2 1 = .error .OwnershipMismatch := by
  refine ⟨?_, ?_, ?_⟩
  · exact ((transfer_from_postcondition nftS1 0 7 1 2 1).1 nftS2 nftS2ev (by rfl)).1
  · exact ((transfer_from_postcondition nftS1 0 7 1 2 1).1 nftS2 nftS2ev (by rfl)).2
  · exact (transfer_from_postcondition nftS1 0 7 5 2 1).2 (by rfl) 1 (by rfl) (by decide)

/-- Witness for C4 at `nftS1`: the contract owner 0 — who neither owns token
1 nor is approved nor an operator — transfers successfully, while the
non-owner caller 3 gets `Unauthorized` with the state unchanged. -/
theorem Nft.transfer_from_owner_gated_witness :
    (∃ s' ev, transfer_from 0 7 nftS1 1 2 1 = .ok (s', ev)) ∧
    transfer_from 3 7 nftS1 1 2 1 = .error .Unauthorized ∧
    execNft (.transferFrom 3 7 1 2 1) nftS1 = nftS1 := by
  refine ⟨?_, ?_, ?_⟩
  · exact (transfer_from_owner_gated nftS1 0 7 1 2 1).1 (by rfl) (by rfl)
  · exact ((transfer_from_owner_gated nftS1 3 7 1 2 1).2 (by decide)).1
  · exact ((transfer_from_owner_gated nftS1 3 7 1 2 1).2 (by decide)).2

/-- Witness for C5 at the fresh state `nftS0` with `count = 2`. -/
theorem Nft.batch_mint_correct_witness :
    ∃ s' ev, batch_mint 0 7 nftS0 1 2 "a" "b" "c" = .ok (s', ev) ∧
      s'.total_count = nftS0.total_count + 2 ∧
      (∀ i, 1 ≤ i → i ≤ 2 →
        s'.owners.get (nftS0.total_count + i) = some 1 ∧
        s'.token_uri_details.get (nftS0.total_count + i) =
          some { status := "a", mpg_time := "b", exp_time := "c" } ∧
        nftS0.owners.get (nftS0.total_count + i) = none) ∧
      ev.length = 1 :=
  batch_mint_correct nftS0 0 7 1 2 "a" "b" "c" (by rfl)
    (fun k o h => by simp [nftS0, init, AMap.get, AMap.new, getL] at h)

/-- Witness for C6 at `nftS1`, token 1 owned by 1: the owner herself may
approve, and the unrelated caller 4 gets `Unauthorized`. -/
theorem Nft.approve_auth_characterization_witness :
    ((∃ s', approve 1 nftS1 (some 5) 1 = .ok s') ↔
      ((1 : Address) = 1 ∨ nftS1.is_approved_for_all 1 1)) ∧
    approve 4 nftS1 (some 5) 1 = .error .Unauthorized := by
  constructor
  · exact (approve_auth_characterization nftS1 1 (some 5) 1 1 (by rfl)).1
  · exact (approve_auth_characterization nftS1 4 (some 5) 1 1 (by rfl)).2 (by decide)

/-- Witness for C7 at the reachable state `nftS3`, in which token 1 carries
the approval 5. -/
theorem Nft.approval_implies_owner_witness :
    ∃ o, nftS3.owners.get 1 = some o := by
  refine approval_implies_owner nftS3 ?_ 1 5 (by rfl)
  exact ReachableNft.step nftS1 (.approveOp 1 (some 5) 1) nftS3 []
    (ReachableNft.step nftS0 (.batchMint 0 7 1 2 "a" "b" "c") nftS1 nftS1ev
      (ReachableNft.init 0 "nm" "sy" "pd" 9 "ur") (by rfl))
    (by rfl)

/-- Witness for C8: self-approval by caller 3 fails, and the reachable state
`nftS4` containing the operator entry (0, 1) satisfies owner ≠ operator. -/
theorem Nft.no_self_operator_approval_witness :
    set_approval_for_all 3 nftS0 3 true = .error .InvalidSelfReference ∧
    (OperatorApproval.mk 0 1).owner ≠ (OperatorApproval.mk 0 1).operator := by
  constructor
  · exact no_self_operator_approval.1 3 nftS0 true
  · exact no_self_operator_approval.2 nftS4
      (ReachableNft.step nftS0 (.setApprovalForAll 0 1 true) nftS4 []
        (ReachableNft.init 0 "nm" "sy" "pd" 9 "ur") (by rfl))
      (OperatorApproval.mk 0 1) (by decide)

/-- Witness for C10 at the reachable directory state `uS1` (one registered
user with wallet 5): the product list map is empty and both product
operations abort. -/
theorem UserDir.directory_product_ops_abort_witness :
    uS1.user_product_list.entries = [] ∧
    (∃ e, mint_product 0 uS1 5 9 77 = .error e) ∧
    (∃ e, transfer_product 0 uS1 4 5 9 77 = .error e) := by
  have h := directory_product_ops_abort uS1
    (ReachableUser.step uS0 (.mintOp 0 "alice" 5) uS1
      (ReachableUser.init 0 "n" "s" "u") (by rfl))
  exact ⟨h.1, h.2.1 0 5 9 77, h.2.2 0 4 5 9 77⟩
